import Mathlib

/-!
Verification development for the data-source administration handlers
(`redash/handlers/data_sources.py`).

The handler module itself is embedded directly from the source.  Its
collaborators (the `ConfigurationContainer`, the `DataSource` model's
pause/resume and serialization, the permission helper `require_access`,
and the query-runner registry) live outside the provided source tree;
those are modelled from the specification, and each such definition says
so in its doc comment.

Conventions of the embedding:
* Python dicts keyed by strings become association lists `List (String × V)`
  (lookup = first match); dicts keyed by group ids become `List (Nat × Bool)`.
* In the group-permission mapping the value is the `view_only` boolean the
  reference system stores: `true` means the group grants read-only access,
  `false` means it grants write access.
* `abort(400)` becomes `Except.error ()`; ordinary returns become `Except.ok`.
* Handlers that may commit state are functions returning
  `(response, committed state)`; `abort` paths leave the committed state
  untouched because the Python code never reaches `save()` there.
-/

namespace Redash

/-- Field types of a connector configuration schema (spec §3, ConnectorSchema). -/
inductive FieldType where
  | string
  | number
  | boolean
  | secret
deriving DecidableEq, Repr

/-- Dynamically-typed configuration values (the JSON scalars the handlers move around). -/
inductive Value where
  | str (s : String)
  | num (n : Int)
  | bool (b : Bool)
deriving DecidableEq, Repr

/-- Whether a value matches a declared field type; `secret` fields hold strings. -/
def Value.typeMatches : Value → FieldType → Bool
  | .str _, .string => true
  | .str _, .secret => true
  | .num _, .number => true
  | .bool _, .boolean => true
  | _, _ => false

/-- One field descriptor of a connector schema (spec §3). -/
structure FieldDescr where
  name : String
  ftype : FieldType
  required : Bool
deriving DecidableEq, Repr

/-- A connector configuration schema: ordered list of field descriptors (spec §3). -/
abbrev ConnectorSchema := List FieldDescr

/-- Validation failure, carrying the offending field and a reason (spec §4.2). -/
structure ValidationError where
  field : String
  reason : String
deriving DecidableEq, Repr

/-- Dict lookup on an association list of configuration values. -/
def lookupVal (vals : List (String × Value)) (k : String) : Option Value :=
  (vals.find? (fun p => p.1 == k)).map (fun p => p.2)

/-- Modelled from the spec: field-by-field validation in schema-declared order
(missing required field, wrong type), §4.2 `construct`.  The concrete validator
lives in `redash/utils/configuration.py`, which is not part of the provided
source tree. -/
def validateFields : List FieldDescr → List (String × Value) → Option ValidationError
  | [], _ => none
  | f :: rest, vals =>
    match lookupVal vals f.name with
    | none =>
      if f.required then some ⟨f.name, "missing required field"⟩
      else validateFields rest vals
    | some v =>
      if v.typeMatches f.ftype then validateFields rest vals
      else some ⟨f.name, "wrong type"⟩

/-- Modelled from the spec: rejection of fields not declared by the schema (§4.2). -/
def unknownField (schema : ConnectorSchema) (vals : List (String × Value)) :
    Option ValidationError :=
  match vals.find? (fun p => !(schema.any (fun f => f.name == p.1))) with
  | some p => some ⟨p.1, "unknown field"⟩
  | none => none

/-- Modelled from the spec: full validation of a value mapping against a schema
(§4.2): required/type checks in schema order, then unknown-field rejection. -/
def validate (schema : ConnectorSchema) (vals : List (String × Value)) :
    Option ValidationError :=
  match validateFields schema vals with
  | some e => some e
  | none => unknownField schema vals

/-- Whether the schema flags field `k` as secret. -/
def isSecretField (schema : ConnectorSchema) (k : String) : Bool :=
  schema.any (fun f => f.name == k && f.ftype == FieldType.secret)

/-- Modelled from the spec: the Configuration Container (§3, §4.2) of
`redash/utils/configuration.py` — a schema reference plus a value mapping. -/
structure ConfigurationContainer where
  schema : ConnectorSchema
  values : List (String × Value)
deriving DecidableEq, Repr

/-- Modelled from the spec: `setSchema` replaces the schema reference without
re-validating (§4.2). -/
def ConfigurationContainer.set_schema (c : ConfigurationContainer)
    (newSchema : ConnectorSchema) : ConfigurationContainer :=
  { c with schema := newSchema }

/-- Dict merge: keys of `old` keep their place with overwritten values, new keys
are appended (Python `dict.update`). -/
def mergeValues (old newVals : List (String × Value)) : List (String × Value) :=
  old.map (fun p =>
    match lookupVal newVals p.1 with
    | some v => (p.1, v)
    | none => p)
  ++ newVals.filter (fun p => !(old.any (fun q => q.1 == p.1)))

/-- Modelled from the spec: `update` merges the new values in, validates the
merged result in its entirety, and commits only on success; on failure the
container is unchanged (§4.2). -/
def ConfigurationContainer.update (c : ConfigurationContainer)
    (newVals : List (String × Value)) : Except ValidationError ConfigurationContainer :=
  let merged := mergeValues c.values newVals
  match validate c.schema merged with
  | some e => .error e
  | none => .ok { c with values := merged }

/-- Modelled from the spec: non-throwing validity check of current values
against the current schema (§4.2 `isValid`). -/
def ConfigurationContainer.is_valid (c : ConfigurationContainer) : Bool :=
  (validate c.schema c.values).isNone

/-- Modelled from the spec: serialization with or without secrets; with
`revealSecrets = false` every secret-flagged field is excluded (§4.2 `toDict`). -/
def ConfigurationContainer.to_dict (c : ConfigurationContainer)
    (revealSecrets : Bool) : List (String × Value) :=
  if revealSecrets then c.values
  else c.values.filter (fun p => !(isSecretField c.schema p.1))

/-- The Data Source entity (spec §3).  `groups` maps group id to the stored
`view_only` boolean (`true` = read-only).  `type` in the source is `dsType`
here because `type` is a Lean keyword. -/
structure DataSource where
  id : Nat
  name : String
  dsType : String
  options : ConfigurationContainer
  groups : List (Nat × Bool)
  paused : Bool
  pause_reason : Option String
deriving DecidableEq, Repr

/-- Modelled from the spec: `pause(reason)` moves to `Paused` recording the
reason, idempotently overwriting any previous reason (§4.3).  The concrete
method lives in `redash/models.py`, outside the provided source tree. -/
def DataSource.pause (ds : DataSource) (reason : Option String) : DataSource :=
  { ds with paused := true, pause_reason := reason }

/-- Modelled from the spec: `resume()` moves to `Active` and clears the pause
reason, idempotently (§4.3). -/
def DataSource.resume (ds : DataSource) : DataSource :=
  { ds with paused := false, pause_reason := none }

/-- Serialized form of a data source as returned by the handlers; `options`
carries the (masked or full) configuration mapping. -/
structure SerializedDS where
  id : Nat
  name : String
  dsType : String
  paused : Bool
  pause_reason : Option String
  options : List (String × Value)
deriving DecidableEq, Repr

/-- Modelled from the spec: entity serialization.  `to_dict all` reveals the
raw option values exactly when `all = true`; the default (masked) form excludes
secret-flagged fields (§3, §4.2, §6). -/
def DataSource.to_dict (ds : DataSource) (all : Bool) : SerializedDS :=
  { id := ds.id
    name := ds.name
    dsType := ds.dsType
    paused := ds.paused
    pause_reason := ds.pause_reason
    options := ds.options.to_dict all }

/-- A registered query runner: its type identifier, its human display name
(the source's `q.name()`), and its configuration schema. -/
structure QueryRunner where
  qtype : String
  qname : String
  configuration_schema : ConnectorSchema
deriving DecidableEq, Repr

/-- The module-level `query_runners` dict, embedded as an insertion-ordered
association list from type identifier to runner. -/
abbrev Registry := List (String × QueryRunner)

/-- `get_configuration_schema_for_type`: looks the connector type up in the
registry and returns its configuration schema, `none` when unknown. -/
def get_configuration_schema_for_type (registry : Registry) (t : String) :
    Option ConnectorSchema :=
  ((registry.find? (fun p => p.1 == t)).map (fun p => p.2.configuration_schema))

/-- `DataSourceTypeListResource.get`: the values of the `query_runners` dict
sorted by display name (Python `sorted` with `key=lambda q: q.name()`, a stable
sort).  Embedded with Mathlib's stable insertion sort. -/
def DataSourceTypeListResource.get (registry : Registry) : List QueryRunner :=
  List.insertionSort (fun a b => a.qname ≤ b.qname) (registry.map (fun p => p.2))

/-- Request body of `DataSourceResource.post` (the keys the handler reads;
absent keys would fault before reaching the logic modelled here). -/
structure UpdateRequest where
  rtype : String
  rname : String
  roptions : List (String × Value)

/-- `DataSourceResource.get`: returns the full entity including unmasked
options (`to_dict(all=True)`); the `@require_admin` gate is upstream. -/
def DataSourceResource.get (ds : DataSource) : SerializedDS :=
  ds.to_dict true

/-- `DataSourceResource.post`: replaces schema and options (set_schema then
update), aborting with 400 when the type is unknown or validation fails; only
on success are type and name assigned and the entity saved.  Returns
`(response, committed state)`: an abort path never reaches `save()`, so the
committed state is the prior one. -/
def DataSourceResource.post (registry : Registry) (stored : DataSource)
    (req : UpdateRequest) : Except Unit SerializedDS × DataSource :=
  match get_configuration_schema_for_type registry req.rtype with
  | none => (.error (), stored)
  | some schema =>
    match (stored.options.set_schema schema).update req.roptions with
    | .error _ => (.error (), stored)
    | .ok newOpts =>
      let ds : DataSource :=
        { stored with dsType := req.rtype, name := req.rname, options := newOpts }
      (.ok (ds.to_dict true), ds)

/-- `view_only` as computed per listing entry:
`all(project(ds.groups, self.current_user.groups).values())` — `project`
restricts the group mapping to the requester's groups, `all` is true iff every
remaining value is true. -/
def viewOnlyFlag (groups : List (Nat × Bool)) (userGroups : List Nat) : Bool :=
  ((groups.filter (fun p => decide (p.1 ∈ userGroups))).map (fun p => p.2)).all id

/-- A listing entry: the serialized row (here the row itself) plus its
`view_only` flag. -/
abbrev ListEntry := DataSource × Bool

/-- The listing loop of `DataSourceListResource.get`: the `response` dict in
insertion order, skipping ids already present (first-seen-wins). -/
def listLoop (userGroups : List Nat) : List DataSource → List ListEntry → List ListEntry
  | [], response => response
  | ds :: rest, response =>
    if response.any (fun e => e.1.id == ds.id) then
      listLoop userGroups rest response
    else
      listLoop userGroups rest (response ++ [(ds, viewOnlyFlag ds.groups userGroups)])

/-- `DataSourceListResource.get`: deduplicate by id (first seen wins), annotate
with `view_only`, and sort the response values ascending by id. -/
def DataSourceListResource.get (dataSources : List DataSource)
    (userGroups : List Nat) : List ListEntry :=
  List.insertionSort (fun a b => a.1.id ≤ b.1.id) (listLoop userGroups dataSources [])

/-- Request body of `DataSourceListResource.post`; `none` models an absent key
(`f not in req`). -/
structure CreateRequest where
  coptions : Option (List (String × Value))
  cname : Option String
  ctype : Option String

/-- Modelled from the spec: `models.DataSource.create_with_group` persists a new
active entity with the validated container (§3 lifecycle; the model class is
outside the provided source tree).  `newId` and `defaultGroup` stand for the
identity and group the storage collaborator assigns. -/
def create_with_group (newId : Nat) (defaultGroup : Nat) (name ty : String)
    (options : ConfigurationContainer) : DataSource :=
  { id := newId
    name := name
    dsType := ty
    options := options
    groups := [(defaultGroup, false)]
    paused := false
    pause_reason := none }

/-- `DataSourceListResource.post`: aborts when `options`, `name` or `type` is
missing, when the type is not in the registry, or when the configuration is
invalid; only then is the data source persisted. -/
def DataSourceListResource.post (registry : Registry) (newId defaultGroup : Nat)
    (req : CreateRequest) : Except Unit DataSource :=
  match req.coptions with
  | none => .error ()
  | some opts =>
    match req.cname with
    | none => .error ()
    | some nm =>
      match req.ctype with
      | none => .error ()
      | some ty =>
        match get_configuration_schema_for_type registry ty with
        | none => .error ()
        | some schema =>
          let config : ConfigurationContainer := ⟨schema, opts⟩
          if config.is_valid then
            .ok (create_with_group newId defaultGroup nm ty config)
          else
            .error ()

/-- Modelled from the spec: `require_access(groups, user, view_only)` with the
`view_only` requirement passes for any requester sharing at least one group
with the resource, or holding the elevated admin capability (§4.4, §4.5:
"Requires only read-level access").  The helper lives in
`redash/permissions.py`, outside the provided source tree. -/
def has_read_access (groups : List (Nat × Bool)) (userGroups : List Nat)
    (isAdmin : Bool) : Bool :=
  isAdmin || groups.any (fun p => decide (p.1 ∈ userGroups))

/-- `DataSourceSchemaResource.get`: after the read-level access check, returns
the connector-provided live schema (`live` stands for what the connector
collaborator returns); no admin gate. -/
def DataSourceSchemaResource.get (ds : DataSource) (userGroups : List Nat)
    (isAdmin : Bool) (live : List String) : Except Unit (List String) :=
  if has_read_access ds.groups userGroups isAdmin then .ok live else .error ()

/-- `DataSourcePauseResource.post`: pauses with the extracted reason, saves, and
returns the default (masked) serialization. -/
def DataSourcePauseResource.post (stored : DataSource) (reason : Option String) :
    SerializedDS × DataSource :=
  let ds := stored.pause reason
  (ds.to_dict false, ds)

/-- `DataSourcePauseResource.delete`: resumes, saves, and returns the default
(masked) serialization. -/
def DataSourcePauseResource.delete (stored : DataSource) :
    SerializedDS × DataSource :=
  let ds := stored.resume
  (ds.to_dict false, ds)

/-- Following the spec's words (§4.4 merged-across-all-groups): all group
permissions attached to resource id `i` anywhere in the storage result,
collected across every occurrence. -/
def mergedGroups (rows : List DataSource) (i : Nat) : List (Nat × Bool) :=
  (rows.filter (fun ds => ds.id == i)).flatMap DataSource.groups

/-- Following the spec's words (§4.4): `viewOnly` aggregated over all groups
shared between the requester and any occurrence of resource id `i`. -/
def mergedViewOnly (rows : List DataSource) (userGroups : List Nat) (i : Nat) : Bool :=
  viewOnlyFlag (mergedGroups rows i) userGroups

/-- Two stored data sources agreeing on everything observable except the values
of secret-flagged configuration fields (same masked serialization). -/
abbrev MaskedAgree (a b : DataSource) : Prop :=
  a.id = b.id ∧ a.name = b.name ∧ a.dsType = b.dsType ∧ a.groups = b.groups ∧
  a.paused = b.paused ∧ a.pause_reason = b.pause_reason ∧
  a.options.schema = b.options.schema ∧
  a.options.to_dict false = b.options.to_dict false

instance : IsTotal ListEntry (fun a b => a.1.id ≤ b.1.id) :=
  ⟨fun a b => Nat.le_total a.1.id b.1.id⟩

instance : IsTrans ListEntry (fun a b => a.1.id ≤ b.1.id) :=
  ⟨fun _ _ _ h h2 => Nat.le_trans h h2⟩

instance : IsTotal QueryRunner (fun a b => a.qname ≤ b.qname) :=
  ⟨fun a b => le_total a.qname b.qname⟩

instance : IsTrans QueryRunner (fun a b => a.qname ≤ b.qname) :=
  ⟨fun _ _ _ h h2 => le_trans h h2⟩

/-! Concrete sample data used by the witnesses and the counterexample. -/

/-- A schema with a required string field and a required secret field. -/
def sampleSchema : ConnectorSchema :=
  [⟨"host", FieldType.string, true⟩, ⟨"password", FieldType.secret, true⟩]

/-- A registry with one connector type, `"pg"`. -/
def sampleRegistry : Registry :=
  [("pg", ⟨"pg", "PostgreSQL", sampleSchema⟩)]

/-- A stored data source with a valid configuration. -/
def sampleDS : DataSource :=
  { id := 1
    name := "prod"
    dsType := "pg"
    options := ⟨sampleSchema, [("host", .str "db"), ("password", .str "x")]⟩
    groups := [(1, true), (2, false)]
    paused := false
    pause_reason := none }

/-- Same as `sampleDS` except for the value of the secret field. -/
def sampleDS' : DataSource :=
  { sampleDS with
    options := ⟨sampleSchema, [("host", .str "db"), ("password", .str "y")]⟩ }

/-- An update request whose options give `host` the wrong type. -/
def badUpdateReq : UpdateRequest :=
  { rtype := "pg", rname := "prod2", roptions := [("host", .num 5)] }

/-- Registry with two runners of equal display name, registered with the
identifier-descending one first. -/
def tieRegistry : Registry :=
  [("z", ⟨"z", "Acme", []⟩), ("a", ⟨"a", "Acme", []⟩)]

/-! ## Shared lemmas -/

/-- `viewOnlyFlag` is true exactly when every group shared between the
requester and the resource carries the read-only marker. -/
theorem viewOnlyFlag_eq_true_iff (groups : List (Nat × Bool)) (ug : List Nat) :
    viewOnlyFlag groups ug = true ↔ ∀ p ∈ groups, p.1 ∈ ug → p.2 = true := by
  unfold viewOnlyFlag
  rw [List.all_eq_true]
  constructor
  · intro hall p hp hm
    exact hall p.2 (List.mem_map.mpr ⟨p, List.mem_filter.mpr ⟨hp, decide_eq_true hm⟩, rfl⟩)
  · intro hread x hx
    obtain ⟨p, hp, rfl⟩ := List.mem_map.mp hx
    obtain ⟨hpg, hpm⟩ := List.mem_filter.mp hp
    exact hread p hpg (of_decide_eq_true hpm)

/-- `viewOnlyFlag` distributes over concatenation of group mappings. -/
theorem viewOnlyFlag_append (g₁ g₂ : List (Nat × Bool)) (ug : List Nat) :
    viewOnlyFlag (g₁ ++ g₂) ug = (viewOnlyFlag g₁ ug && viewOnlyFlag g₂ ug) := by
  unfold viewOnlyFlag
  rw [List.filter_append, List.map_append, List.all_append]

/-- Over a non-empty bundle of occurrences that all carry the same group
mapping, the aggregated flag equals the flag of that one mapping. -/
theorem viewOnlyFlag_flatMap_const (ug : List Nat) (g : List (Nat × Bool)) :
    ∀ L : List DataSource, L ≠ [] → (∀ r ∈ L, r.groups = g) →
      viewOnlyFlag (L.flatMap DataSource.groups) ug = viewOnlyFlag g ug := by
  intro L
  induction L with
  | nil => intro h; exact absurd rfl h
  | cons r t ih =>
    intro _ hall
    have hr : r.groups = g := hall r (List.mem_cons_self r t)
    cases t with
    | nil => simp [List.flatMap, hr]
    | cons r' t' =>
      have ht : viewOnlyFlag ((r' :: t').flatMap DataSource.groups) ug = viewOnlyFlag g ug :=
        ih (List.cons_ne_nil r' t') (fun x hx => hall x (List.mem_cons_of_mem r hx))
      rw [List.flatMap_cons, viewOnlyFlag_append, hr, ht, Bool.and_self]

/-- Ids reachable in the listing loop: those already in the response plus those
of the remaining rows. -/
theorem listLoop_mem_ids (ug : List Nat) (rows : List DataSource) (acc : List ListEntry)
    (i : Nat) :
    (∃ e ∈ listLoop ug rows acc, e.1.id = i) ↔
      (∃ e ∈ acc, e.1.id = i) ∨ ∃ ds ∈ rows, ds.id = i := by
  induction rows generalizing acc with
  | nil => simp [listLoop]
  | cons ds rest ih =>
    by_cases hc : acc.any (fun e => e.1.id == ds.id) = true
    · rw [listLoop, if_pos hc, ih]
      obtain ⟨e, he, hei⟩ := List.any_eq_true.mp hc
      have heid : e.1.id = ds.id := Nat.eq_of_beq_eq_true (by simpa using hei)
      constructor
      · rintro (h | ⟨d, hd, hdi⟩)
        · exact Or.inl h
        · exact Or.inr ⟨d, List.mem_cons_of_mem ds hd, hdi⟩
      · rintro (h | ⟨d, hd, hdi⟩)
        · exact Or.inl h
        · rcases List.mem_cons.mp hd with rfl | hd'
          · exact Or.inl ⟨e, he, heid.trans hdi⟩
          · exact Or.inr ⟨d, hd', hdi⟩
    · rw [listLoop, if_neg hc, ih]
      constructor
      · rintro (⟨e, he, hei⟩ | ⟨d, hd, hdi⟩)
        · rcases List.mem_append.mp he with he' | he'
          · exact Or.inl ⟨e, he', hei⟩
          · rcases List.mem_singleton.mp he' with rfl
            exact Or.inr ⟨ds, List.mem_cons_self ds rest, hei⟩
        · exact Or.inr ⟨d, List.mem_cons_of_mem ds hd, hdi⟩
      · rintro (⟨e, he, hei⟩ | ⟨d, hd, hdi⟩)
        · exact Or.inl ⟨e, List.mem_append.mpr (Or.inl he), hei⟩
        · rcases List.mem_cons.mp hd with rfl | hd'
          · exact Or.inl ⟨(d, viewOnlyFlag d.groups ug),
              List.mem_append.mpr (Or.inr (List.mem_singleton.mpr rfl)), hdi⟩
          · exact Or.inr ⟨d, hd', hdi⟩

/-- The listing loop never adds an id twice: starting from a duplicate-free
response it produces a duplicate-free response. -/
theorem listLoop_nodup (ug : List Nat) (rows : List DataSource) (acc : List ListEntry)
    (hacc : (acc.map (fun e => e.1.id)).Nodup) :
    ((listLoop ug rows acc).map (fun e => e.1.id)).Nodup := by
  induction rows generalizing acc with
  | nil => simpa [listLoop] using hacc
  | cons ds rest ih =>
    by_cases hc : acc.any (fun e => e.1.id == ds.id) = true
    · rw [listLoop, if_pos hc]
      exact ih acc hacc
    · rw [listLoop, if_neg hc]
      apply ih
      rw [List.map_append, List.nodup_append]
      refine ⟨hacc, List.nodup_singleton _, ?_⟩
      intro x hx hx'
      obtain ⟨e, he, rfl⟩ := List.mem_map.mp hx
      have hid : e.1.id = ds.id := by simpa using hx'
      exact hc (List.any_eq_true.mpr ⟨e, he, by simpa using hid⟩)

/-- Every entry the listing loop emits either was already in the response or is
a row of the input annotated with its `view_only` flag. -/
theorem listLoop_mem_src (ug : List Nat) (rows : List DataSource) (acc : List ListEntry) :
    ∀ e ∈ listLoop ug rows acc,
      e ∈ acc ∨ ∃ ds ∈ rows, e = (ds, viewOnlyFlag ds.groups ug) := by
  induction rows generalizing acc with
  | nil => intro e he; exact Or.inl (by simpa [listLoop] using he)
  | cons ds rest ih =>
    intro e he
    by_cases hc : acc.any (fun x => x.1.id == ds.id) = true
    · rw [listLoop, if_pos hc] at he
      rcases ih acc e he with h | ⟨d, hd, hde⟩
      · exact Or.inl h
      · exact Or.inr ⟨d, List.mem_cons_of_mem ds hd, hde⟩
    · rw [listLoop, if_neg hc] at he
      rcases ih _ e he with h | ⟨d, hd, hde⟩
      · rcases List.mem_append.mp h with h' | h'
        · exact Or.inl h'
        · rcases List.mem_singleton.mp h' with rfl
          exact Or.inr ⟨ds, List.mem_cons_self ds rest, rfl⟩
      · exact Or.inr ⟨d, List.mem_cons_of_mem ds hd, hde⟩

/-! ## Claims -/

/-- C1: in the data-source listing, for every requester sharing at least one
group with the resource's group-permission mapping, the entry's `view_only`
flag is true iff every shared group is marked read-only, and it is false as
soon as one shared group grants write. -/
theorem viewOnly_iff_all_shared_read (groups : List (Nat × Bool)) (ug : List Nat)
    (_h : ∃ p ∈ groups, p.1 ∈ ug) :
    (viewOnlyFlag groups ug = true ↔ ∀ p ∈ groups, p.1 ∈ ug → p.2 = true)
    ∧ ((∃ p ∈ groups, p.1 ∈ ug ∧ p.2 = false) → viewOnlyFlag groups ug = false) := by
  refine ⟨viewOnlyFlag_eq_true_iff groups ug, ?_⟩
  rintro ⟨p, hp, hm, hw⟩
  cases hf : viewOnlyFlag groups ug with
  | false => rfl
  | true =>
    have := (viewOnlyFlag_eq_true_iff groups ug).mp hf p hp hm
    rw [this] at hw
    exact absurd hw (by simp)

/-- Witness for C1 at a concrete resource and requester. -/
theorem viewOnly_iff_all_shared_read_witness :
    (viewOnlyFlag [(1, true), (2, false)] [1, 2] = true ↔
      ∀ p ∈ [(1, true), (2, false)], p.1 ∈ [1, 2] → p.2 = true)
    ∧ ((∃ p ∈ [(1, true), (2, false)], p.1 ∈ [1, 2] ∧ p.2 = false) →
      viewOnlyFlag [(1, true), (2, false)] [1, 2] = false) :=
  viewOnly_iff_all_shared_read [(1, true), (2, false)] [1, 2] (by decide)

/-- C10: when the requester shares no group with the resource (as for an
administrator listing every data source), the computed `view_only` flag is
vacuously true. -/
theorem viewOnly_empty_intersection (groups : List (Nat × Bool)) (ug : List Nat)
    (h : ∀ p ∈ groups, p.1 ∉ ug) :
    viewOnlyFlag groups ug = true :=
  (viewOnlyFlag_eq_true_iff groups ug).mpr
    (fun p hp hm => absurd hm (h p hp))

/-- Witness for C10 at a concrete disjoint requester. -/
theorem viewOnly_empty_intersection_witness :
    viewOnlyFlag [(3, false), (4, false)] [9] = true :=
  viewOnly_empty_intersection [(3, false), (4, false)] [9] (by decide)

/-- C2: the listing contains exactly one entry per distinct input id, even when
the storage collaborator returns an id several times, and the entries are
ordered ascending by resource id. -/
theorem listing_dedup_sorted (dataSources : List DataSource) (ug : List Nat) :
    ((DataSourceListResource.get dataSources ug).map (fun e => e.1.id)).Nodup
    ∧ List.Sorted (fun a b => a.1.id ≤ b.1.id) (DataSourceListResource.get dataSources ug)
    ∧ ∀ i : Nat, (∃ e ∈ DataSourceListResource.get dataSources ug, e.1.id = i) ↔
        ∃ ds ∈ dataSources, ds.id = i := by
  have hperm : List.Perm (DataSourceListResource.get dataSources ug)
      (listLoop ug dataSources []) :=
    List.perm_insertionSort _ _
  refine ⟨?_, ?_, ?_⟩
  · exact (hperm.map (fun e => e.1.id)).nodup_iff.mpr
      (listLoop_nodup ug dataSources [] (by simp))
  · exact List.sorted_insertionSort _ _
  · intro i
    rw [show (∃ e ∈ DataSourceListResource.get dataSources ug, e.1.id = i) ↔
        ∃ e ∈ listLoop ug dataSources [], e.1.id = i from
      ⟨fun ⟨e, he, hi⟩ => ⟨e, hperm.mem_iff.mp he, hi⟩,
       fun ⟨e, he, hi⟩ => ⟨e, hperm.mem_iff.mpr he, hi⟩⟩]
    rw [listLoop_mem_ids]
    simp

/-- C9: first-seen-wins handling of duplicate ids computes the same `view_only`
value as the spec's merged-across-all-groups semantics, because every
occurrence's flag is computed from the resource's entire group-permission
mapping; the hypothesis records that occurrences of one entity carry one
mapping. -/
theorem firstSeen_viewOnly_eq_merged (rows : List DataSource) (ug : List Nat)
    (hcons : ∀ a ∈ rows, ∀ b ∈ rows, a.id = b.id → a.groups = b.groups) :
    ∀ e ∈ DataSourceListResource.get rows ug, e.2 = mergedViewOnly rows ug e.1.id := by
  intro e he
  have he' : e ∈ listLoop ug rows [] :=
    (List.perm_insertionSort _ _).mem_iff.mp he
  rcases listLoop_mem_src ug rows [] e he' with h | ⟨ds, hds, rfl⟩
  · exact absurd h (List.not_mem_nil e)
  · unfold mergedViewOnly mergedGroups
    refine (viewOnlyFlag_flatMap_const ug ds.groups _ ?_ ?_).symm
    · intro hnil
      have : ds ∈ rows.filter (fun d => d.id == (ds, viewOnlyFlag ds.groups ug).1.id) :=
        List.mem_filter.mpr ⟨hds, by simp⟩
      rw [hnil] at this
      exact List.not_mem_nil ds this
    · intro r hr
      obtain ⟨hrm, hrid⟩ := List.mem_filter.mp hr
      exact hcons r hrm ds hds (by simpa using hrid)

/-- Witness for C9: a requester in two groups, the same entity returned twice. -/
theorem firstSeen_viewOnly_eq_merged_witness :
    (sampleDS, viewOnlyFlag sampleDS.groups [1, 2]).2 =
      mergedViewOnly [sampleDS, sampleDS] [1, 2]
        (sampleDS, viewOnlyFlag sampleDS.groups [1, 2]).1.id :=
  firstSeen_viewOnly_eq_merged [sampleDS, sampleDS] [1, 2] (by decide)
    (sampleDS, viewOnlyFlag sampleDS.groups [1, 2]) (by decide)

/-- C3: when the new options do not validate against the new type's schema (or
the type is unknown to the registry), the update aborts with an error and the
committed entity — in particular its Configuration Container — is exactly the
prior one. -/
theorem update_failure_no_partial_write (registry : Registry) (stored : DataSource)
    (req : UpdateRequest)
    (h : (get_configuration_schema_for_type registry req.rtype).all
      (fun s => (validate s (mergeValues stored.options.values req.roptions)).isSome) = true) :
    (DataSourceResource.post registry stored req).1 = Except.error ()
    ∧ (DataSourceResource.post registry stored req).2 = stored
    ∧ (DataSourceResource.post registry stored req).2.options = stored.options := by
  cases hlook : get_configuration_schema_for_type registry req.rtype with
  | none => simp [DataSourceResource.post, hlook]
  | some s =>
    rw [hlook] at h
    obtain ⟨e, he⟩ := Option.isSome_iff_exists.mp (by simpa using h)
    simp [DataSourceResource.post, hlook, ConfigurationContainer.update,
      ConfigurationContainer.set_schema, he]

/-- Witness for C3: a request whose options give `host` the wrong type is
rejected and commits nothing. -/
theorem update_failure_no_partial_write_witness :
    (DataSourceResource.post sampleRegistry sampleDS badUpdateReq).1 = Except.error ()
    ∧ (DataSourceResource.post sampleRegistry sampleDS badUpdateReq).2 = sampleDS
    ∧ (DataSourceResource.post sampleRegistry sampleDS badUpdateReq).2.options =
      sampleDS.options :=
  update_failure_no_partial_write sampleRegistry sampleDS badUpdateReq (by decide)

/-- C4: a data source is created exactly when `options`, `name` and `type` are
all present, the type is registered, and the options are valid for the type's
schema; in every other case the handler errors without persisting anything. -/
theorem create_persists_iff (registry : Registry) (newId defaultGroup : Nat)
    (req : CreateRequest) :
    (∃ ds, DataSourceListResource.post registry newId defaultGroup req = Except.ok ds) ↔
      ∃ opts nm ty, req.coptions = some opts ∧ req.cname = some nm ∧ req.ctype = some ty ∧
        ∃ schema, get_configuration_schema_for_type registry ty = some schema ∧
          (ConfigurationContainer.mk schema opts).is_valid = true := by
  obtain ⟨copts, cnm, cty⟩ := req
  cases copts with
  | none => simp [DataSourceListResource.post]
  | some opts =>
    cases cnm with
    | none => simp [DataSourceListResource.post]
    | some nm =>
      cases cty with
      | none => simp [DataSourceListResource.post]
      | some ty =>
        cases hlook : get_configuration_schema_for_type registry ty with
        | none => simp [DataSourceListResource.post, hlook]
        | some schema =>
          by_cases hv : (ConfigurationContainer.mk schema opts).is_valid = true
          · simp [DataSourceListResource.post, hlook, hv]
          · constructor
            · rintro ⟨ds, hds⟩
              simp only [DataSourceListResource.post, hlook] at hds
              rw [if_neg hv] at hds
              exact Except.noConfusion hds
            · rintro ⟨o, n, t, ho, hn, ht, s, hs, hval⟩
              cases Option.some.inj ho
              cases Option.some.inj ht
              rw [hlook] at hs
              cases Option.some.inj hs
              exact absurd hval hv

/-- C5: re-pausing overwrites the reason and stays `Paused`; resuming an
already-active entity is a no-op that leaves it `Active` with no reason. -/
theorem pause_idempotent_resume_noop (ds : DataSource) (r r2 : Option String)
    (h : ds.paused = false ∧ ds.pause_reason = none) :
    (DataSourcePauseResource.post (DataSourcePauseResource.post ds r).2 r2).2.paused = true
    ∧ (DataSourcePauseResource.post (DataSourcePauseResource.post ds r).2 r2).2.pause_reason
      = r2
    ∧ (DataSourcePauseResource.delete ds).2 = ds
    ∧ (DataSourcePauseResource.delete ds).2.paused = false
    ∧ (DataSourcePauseResource.delete ds).2.pause_reason = none := by
  obtain ⟨h1, h2⟩ := h
  refine ⟨rfl, rfl, ?_, ?_, rfl⟩
  · cases ds
    simp only [DataSourcePauseResource.delete, DataSource.resume] at *
    simp [h1, h2]
  · rfl

/-- Witness for C5 on a concrete active entity and two reasons. -/
theorem pause_idempotent_resume_noop_witness :
    (DataSourcePauseResource.post
        (DataSourcePauseResource.post sampleDS (some "maintenance")).2
        (some "migration")).2.paused = true
    ∧ (DataSourcePauseResource.post
        (DataSourcePauseResource.post sampleDS (some "maintenance")).2
        (some "migration")).2.pause_reason = some "migration"
    ∧ (DataSourcePauseResource.delete sampleDS).2 = sampleDS
    ∧ (DataSourcePauseResource.delete sampleDS).2.paused = false
    ∧ (DataSourcePauseResource.delete sampleDS).2.pause_reason = none :=
  pause_idempotent_resume_noop sampleDS (some "maintenance") (some "migration") (by decide)

/-- C6: pause and resume answer with the masked serialization — no
secret-flagged field appears, and the response is the same for any two stored
entities that differ only in secret values — while the admin-only get returns
the full entity with unmasked option values. -/
theorem masked_pause_resume_unmasked_get (a b : DataSource) (r : Option String)
    (h : MaskedAgree a b) :
    (DataSourcePauseResource.post a r).1 = (DataSourcePauseResource.post b r).1
    ∧ (DataSourcePauseResource.delete a).1 = (DataSourcePauseResource.delete b).1
    ∧ (∀ p ∈ (DataSourcePauseResource.post a r).1.options,
        isSecretField a.options.schema p.1 = false)
    ∧ (∀ p ∈ (DataSourcePauseResource.delete a).1.options,
        isSecretField a.options.schema p.1 = false)
    ∧ (DataSourceResource.get a).options = a.options.values := by
  obtain ⟨hid, hname, htype, hgroups, hpaused, hreason, hschema, hmask⟩ := h
  refine ⟨?_, ?_, ?_, ?_, rfl⟩
  · simp [DataSourcePauseResource.post, DataSource.pause, DataSource.to_dict,
      hid, hname, htype, hmask]
  · simp [DataSourcePauseResource.delete, DataSource.resume, DataSource.to_dict,
      hid, hname, htype, hmask]
  · intro p hp
    simp only [DataSourcePauseResource.post, DataSource.pause, DataSource.to_dict,
      ConfigurationContainer.to_dict, if_neg (Bool.false_ne_true), Bool.false_eq_true,
      if_false] at hp
    simpa using (List.mem_filter.mp hp).2
  · intro p hp
    simp only [DataSourcePauseResource.delete, DataSource.resume, DataSource.to_dict,
      ConfigurationContainer.to_dict, Bool.false_eq_true, if_false] at hp
    simpa using (List.mem_filter.mp hp).2

/-- Witness for C6: two entities differing only in the stored password. -/
theorem masked_pause_resume_unmasked_get_witness :
    (DataSourcePauseResource.post sampleDS (some "why")).1 =
      (DataSourcePauseResource.post sampleDS' (some "why")).1
    ∧ (DataSourcePauseResource.delete sampleDS).1 =
      (DataSourcePauseResource.delete sampleDS').1
    ∧ (∀ p ∈ (DataSourcePauseResource.post sampleDS (some "why")).1.options,
        isSecretField sampleDS.options.schema p.1 = false)
    ∧ (∀ p ∈ (DataSourcePauseResource.delete sampleDS).1.options,
        isSecretField sampleDS.options.schema p.1 = false)
    ∧ (DataSourceResource.get sampleDS).options = sampleDS.options.values :=
  masked_pause_resume_unmasked_get sampleDS sampleDS' (some "why") (by decide)

/-- C8: the live-schema endpoint answers for any requester sharing a group with
the data source, whatever the admin capability — read-level access suffices. -/
theorem schema_requires_only_read_access (ds : DataSource) (ug : List Nat)
    (isAdmin : Bool) (live : List String)
    (h : ∃ p ∈ ds.groups, p.1 ∈ ug) :
    DataSourceSchemaResource.get ds ug isAdmin live = Except.ok live := by
  obtain ⟨p, hp, hm⟩ := h
  have hany : ds.groups.any (fun q => decide (q.1 ∈ ug)) = true :=
    List.any_eq_true.mpr ⟨p, hp, decide_eq_true hm⟩
  unfold DataSourceSchemaResource.get has_read_access
  rw [hany, Bool.or_true]
  simp

/-- Witness for C8: a non-admin requester in a shared read-only group. -/
theorem schema_requires_only_read_access_witness :
    DataSourceSchemaResource.get sampleDS [1] false ["orders"] =
      Except.ok ["orders"] :=
  schema_requires_only_read_access sampleDS [1] false ["orders"] (by decide)

/-- Ordered insertion leaves the subsequence of runners with any given display
name untouched apart from putting the inserted runner first when it has that
name: equal names never swap. -/
theorem filter_orderedInsert_qname (k : String) (b : QueryRunner) (l : List QueryRunner) :
    (List.orderedInsert (fun a c => a.qname ≤ c.qname) b l).filter (fun q => q.qname == k)
      = if (b.qname == k) = true then b :: l.filter (fun q => q.qname == k)
        else l.filter (fun q => q.qname == k) := by
  induction l with
  | nil =>
    rw [List.orderedInsert, List.filter_cons]
  | cons c t ih =>
    by_cases hbc : b.qname ≤ c.qname
    · rw [List.orderedInsert, if_pos hbc, List.filter_cons]
    · rw [List.orderedInsert, if_neg hbc]
      by_cases hck : (c.qname == k) = true
      · have hbk : ¬((b.qname == k) = true) := by
          intro hbk
          have hb : b.qname = k := by simpa using hbk
          have hc : c.qname = k := by simpa using hck
          exact hbc (le_of_eq (hb.trans hc.symm))
        rw [if_neg hbk, List.filter_cons, if_pos hck, ih, if_neg hbk,
          List.filter_cons, if_pos hck]
      · by_cases hbk : (b.qname == k) = true
        · rw [if_pos hbk, List.filter_cons, if_neg hck, ih, if_pos hbk,
            List.filter_cons, if_neg hck]
        · rw [if_neg hbk, List.filter_cons, if_neg hck, ih, if_neg hbk,
            List.filter_cons, if_neg hck]

/-- The sort used by the connector-type listing is stable: for every display
name, the runners carrying it appear in registration order. -/
theorem filter_insertionSort_qname (k : String) (l : List QueryRunner) :
    (List.insertionSort (fun a c => a.qname ≤ c.qname) l).filter (fun q => q.qname == k)
      = l.filter (fun q => q.qname == k) := by
  induction l with
  | nil => rfl
  | cons b t ih =>
    rw [List.insertionSort, filter_orderedInsert_qname, ih, List.filter_cons]

/-- C7 counterexample: two runners share the display name `"Acme"` and are
registered with identifiers in descending order; the listing keeps them in
registration order, so it is not sorted by display name with the connector-type
identifier as tie-break. -/
theorem typeList_tiebreak_counterexample :
    ¬ List.Sorted
        (fun a b : QueryRunner =>
          a.qname < b.qname ∨ (a.qname = b.qname ∧ a.qtype ≤ b.qtype))
        (DataSourceTypeListResource.get tieRegistry) := by
  have hev : DataSourceTypeListResource.get tieRegistry =
      [⟨"z", "Acme", []⟩, ⟨"a", "Acme", []⟩] := by
    simp [DataSourceTypeListResource.get, tieRegistry]
  rw [hev]
  intro hs
  have hrel := (List.sorted_cons.mp hs).1 ⟨"a", "Acme", []⟩ (List.mem_singleton.mpr rfl)
  rcases hrel with hlt | ⟨_, hle⟩
  · exact lt_irrefl _ hlt
  · have hza : ¬(("z" : String) ≤ "a") := by simp; decide
    exact hza hle

/-- C7 (amended): the listing is the registered runners sorted ascending by
display name, and the sort is stable — runners with equal display names keep
their registration order rather than being tie-broken by identifier. -/
theorem typeList_sorted_stable (registry : Registry) :
    List.Sorted (fun a b : QueryRunner => a.qname ≤ b.qname)
      (DataSourceTypeListResource.get registry)
    ∧ List.Perm (DataSourceTypeListResource.get registry) (registry.map (fun p => p.2))
    ∧ ∀ k : String,
        (DataSourceTypeListResource.get registry).filter (fun q => q.qname == k)
          = (registry.map (fun p => p.2)).filter (fun q => q.qname == k) :=
  ⟨List.sorted_insertionSort _ _, List.perm_insertionSort _ _,
    fun k => filter_insertionSort_qname k _⟩

end Redash
